import Mathlib

/-!
Shallow embedding of the cancellable-task supervision and reconciliation
layer of the colab-vscode extension:

* `LatestCancelable` (src/common/async.ts): the latest-wins supervisor that
  runs one named async worker at a time, aborting the previous run.
* `AsyncToggle` (src/common/toggleable.ts): the on/off lifecycle toggle
  built on `LatestCancelable`.
* `ConnectionRefresher` / `ConnectionRefreshController`
  (src/colab/connection-refresher.ts): the per-resource expiry timer
  scheduler with bounded retry.
* `LanguageClientController` (src/lsp/language-client.ts): the
  reconciliation controller keeping a single language-client session
  pointed at the latest assigned server.

Millisecond durations and `Date.getTime()` values are embedded as `Int`.
JS `Date` objects carry identity — `===` on two `Date`s is reference
equality — so a `Date` is embedded as a `DateObj`: an allocation tag plus
its `getTime()` value, with structural equality playing the role of `===`
(distinct allocations carry distinct tags).  Server/session identities
are `Nat`; the observable side effects
(`setTimeout`/`clearTimeout`, log calls, session open/close) are recorded
as explicit event lists so that frame conditions ("no timer was touched")
are expressible.
-/

namespace Colab

/-! ## LatestCancelable (src/common/async.ts) -/

/-- State of a `LatestCancelable` instance.  `curAbort` holds the id of the
current run's `AbortController` (`undefined` embedded as `none`); `signaled`
collects the ids of controllers whose `abort()` has been called; `nextId`
supplies fresh controller identities. -/
structure LCState where
  curAbort : Option Nat
  nextId : Nat
  signaled : List Nat
deriving DecidableEq, Repr

def LCState.init : LCState := ⟨none, 0, []⟩

/-- The synchronous head of `run()`: abort the previous controller if
present, then install a fresh controller as current. -/
def lcRunStart (s : LCState) : LCState :=
  let s1 :=
    match s.curAbort with
    | some c => { s with signaled := c :: s.signaled }
    | none => s
  { s1 with curAbort := some s.nextId, nextId := s.nextId + 1 }

/-- The `finally` clause of `run()` once the worker for run `r` settles:
clear the current pointer only if it still refers there. -/
def lcSettle (r : Nat) (s : LCState) : LCState :=
  if s.curAbort = some r then { s with curAbort := none } else s

/-- `cancel()`: abort the current run's controller if one is present. -/
def lcCancel (s : LCState) : LCState :=
  match s.curAbort with
  | some c => { s with signaled := c :: s.signaled }
  | none => s

/-- `isRunning()`: a current controller exists and its signal is not
aborted. -/
def LCState.isRunning (s : LCState) : Bool :=
  match s.curAbort with
  | some c => !(s.signaled.contains c)
  | none => false

/-- Run `r` is the current run of state `s`. -/
def LCState.isCurrent (s : LCState) (r : Nat) : Prop := s.curAbort = some r

instance (s : LCState) (r : Nat) : Decidable (s.isCurrent r) := by
  unfold LCState.isCurrent; infer_instance

/-- The atomic steps a `LatestCancelable` instance can take: the
synchronous head of `run()`, the settling of run `r`'s worker, and
`cancel()`. -/
inductive LCOp
  | runStart
  | settle (r : Nat)
  | cancel
deriving DecidableEq, Repr

def lcStep (s : LCState) (op : LCOp) : LCState :=
  match op with
  | .runStart => lcRunStart s
  | .settle r => lcSettle r s
  | .cancel => lcCancel s

/-- Execute a sequence of steps from the initial state. -/
def lcExec (ops : List LCOp) : LCState := ops.foldl lcStep LCState.init

/-! ## AsyncToggle (src/common/toggleable.ts) -/

inductive ToggleDirection
  | on
  | off
deriving DecidableEq, Repr

/-- The micro events of the `AsyncToggle` worker body, in program order:
the `this.lastToggle = dir` assignment, and the invocation of the
`turnOn`/`turnOff` hook.  The hook event records the value of `lastToggle`
at the instant the hook is invoked. -/
inductive ToggleMicro
  | record (dir : ToggleDirection)
  | hook (dir : ToggleDirection) (lastToggleAtCall : Option ToggleDirection)
deriving DecidableEq, Repr

structure ToggleState where
  lastToggle : Option ToggleDirection
deriving DecidableEq, Repr

/-- The worker body of `AsyncToggle`'s `LatestCancelable`: if the requested
direction equals `lastToggle`, return immediately; otherwise record the new
direction and then invoke the matching hook. -/
def toggleWorker (dir : ToggleDirection) (s : ToggleState) :
    ToggleState × List ToggleMicro :=
  if s.lastToggle = some dir then (s, [])
  else
    let s1 : ToggleState := ⟨some dir⟩
    (s1, [.record dir, .hook dir s1.lastToggle])

/-- Process a sequence of toggle requests, concatenating the emitted micro
events. -/
def toggleExec (reqs : List ToggleDirection) (s : ToggleState) :
    ToggleState × List ToggleMicro :=
  match reqs with
  | [] => (s, [])
  | dir :: rest =>
    let (s1, evs1) := toggleWorker dir s
    let (s2, evs2) := toggleExec rest s1
    (s2, evs1 ++ evs2)

/-- Count of turn-on hook invocations in a micro-event trace. -/
def hookOnCount (evs : List ToggleMicro) : Nat :=
  evs.countP fun ev =>
    match ev with
    | .hook .on _ => true
    | _ => false

/-! ## ConnectionRefresher (src/colab/connection-refresher.ts) -/

/-- `REFRESH_BUFFER_MS`: buffer before expiry at which a refresh is
scheduled. -/
def REFRESH_BUFFER_MS : Int := 5 * 60 * 1000

/-- `RETRY_BUFFER_MS`: buffer used to schedule a retry after a failed
refresh. -/
def RETRY_BUFFER_MS : Int := 30 * 1000

/-- A JS `Date` object: an allocation tag plus the `getTime()`
millisecond value.  `===` on `Date`s is reference equality, embedded as
structural equality of `DateObj`: an object equals itself, and distinct
allocations carry distinct tags, so value-equal but distinct `Date`s are
unequal. -/
structure DateObj where
  ref : Nat
  time : Int
deriving DecidableEq, Repr

/-- A `ColabAssignedServer` restricted to the fields this module reads:
its id and the `connectionInformation.tokenExpiry` Date object. -/
structure ServerRec where
  id : Nat
  tokenExpiry : DateObj
deriving DecidableEq, Repr

/-- `bufferedRefreshDelay`: delay before firing a refresh timer for `s`,
at time `now`. -/
def bufferedRefreshDelay (now : Int) (s : ServerRec) : Int :=
  max (s.tokenExpiry.time - now - REFRESH_BUFFER_MS) 100

/-- `shouldRefresh`: the server's token expires within the refresh
buffer. -/
def shouldRefresh (now : Int) (s : ServerRec) : Bool :=
  s.tokenExpiry.time ≤ now + REFRESH_BUFFER_MS

/-- The observable side effects of the refresher: timer management
(`setTimeout` with its delay, `clearTimeout`), log calls by level, and the
outgoing `assignments.refreshConnection` call. -/
inductive RefOp
  | setTimer (id : Nat) (delay : Int)
  | clearTimer (id : Nat)
  | logError
  | logWarn
  | logTrace
  | refreshCall (id : Nat)
deriving DecidableEq, Repr

/-- Does this op set or clear the timer of key `k`? -/
def timerOpFor (k : Nat) : RefOp → Bool
  | .setTimer i _ => i = k
  | .clearTimer i => i = k
  | _ => false

def isSetTimerOp : RefOp → Bool
  | .setTimer _ _ => true
  | _ => false

/-- Replacement-on-set semantics of `Map.set` over an association list. -/
def mapSet (m : List (Nat × DateObj)) (k : Nat) (v : DateObj) : List (Nat × DateObj) :=
  (k, v) :: m.filter fun p => p.1 ≠ k

/-- State of one `ConnectionRefresher`: the `refreshes` map, keyed by
server id and recording the expiry stored at scheduling time, and the
`abortController.signal.aborted` flag.  The `timeout` handles stored in
the map are represented by the timer events in the op trace. -/
structure RefState where
  refreshes : List (Nat × DateObj)
  aborted : Bool
deriving DecidableEq, Repr

/-- `scheduleRefresh`: set a timer for `srv` with the given delay and
record the server's expiry in the map (code order: `setTimeout`,
`log.trace`, `refreshes.set`). -/
def scheduleRefresh (srv : ServerRec) (delayMs : Int) (st : RefState) :
    RefState × List RefOp :=
  ({ st with refreshes := mapSet st.refreshes srv.id srv.tokenExpiry },
   [.setTimer srv.id delayMs, .logTrace])

/-- `clear`: if the server is tracked, clear its timer and drop it from
the map; otherwise do nothing. -/
def clear (serverId : Nat) (st : RefState) : RefState × List RefOp :=
  match st.refreshes.lookup serverId with
  | some _ =>
    ({ st with refreshes := st.refreshes.filter fun p => p.1 ≠ serverId },
     [.clearTimer serverId])
  | none => (st, [])

/-- The `AssignmentChangeEvent` fields read by the refresher; a removed
entry's `server` field projected to its record. -/
structure AssignmentChangeEvent where
  added : List ServerRec
  changed : List ServerRec
  removed : List ServerRec
deriving DecidableEq, Repr

/-- The `for (const s of e.added)` loop: schedule each added server with
the default (buffered) delay. -/
def processAdded (now : Int) : List ServerRec → RefState → RefState × List RefOp
  | [], st => (st, [])
  | s :: rest, st =>
    let (st1, ops1) := scheduleRefresh s (bufferedRefreshDelay now s) st
    let (st2, ops2) := processAdded now rest st1
    (st2, ops1 ++ ops2)

/-- The `for (const s of e.changed)` loop.  The boolean result records
whether the loop executed one of its `return` statements, which abort the
whole `handleAssignmentChange` handler: an untracked id logs an error and
returns; an entry whose expiry equals the recorded expiry returns
silently. -/
def processChanged (now : Int) :
    List ServerRec → RefState → RefState × List RefOp × Bool
  | [], st => (st, [], false)
  | s :: rest, st =>
    match st.refreshes.lookup s.id with
    | none => (st, [.logError], true)
    | some expiry =>
      if expiry = s.tokenExpiry then (st, [], true)
      else
        let (st1, ops1) := clear s.id st
        let (st2, ops2) := scheduleRefresh s (bufferedRefreshDelay now s) st1
        let (st3, rest3) := processChanged now rest st2
        (st3, ops1 ++ ops2 ++ rest3.1, rest3.2)

/-- The `for (const { server: s } of e.removed)` loop: clear each removed
server. -/
def processRemoved : List ServerRec → RefState → RefState × List RefOp
  | [], st => (st, [])
  | s :: rest, st =>
    let (st1, ops1) := clear s.id st
    let (st2, ops2) := processRemoved rest st1
    (st2, ops1 ++ ops2)

/-- `handleAssignmentChange`: added loop, changed loop, removed loop; a
`return` inside the changed loop skips the removed loop. -/
def handleAssignmentChange (now : Int) (e : AssignmentChangeEvent)
    (st : RefState) : RefState × List RefOp :=
  let (st1, ops1) := processAdded now e.added st
  let (st2, rest2) := processChanged now e.changed st1
  if rest2.2 then (st2, ops1 ++ rest2.1)
  else
    let (st3, ops3) := processRemoved e.removed st2
    (st3, ops1 ++ rest2.1 ++ ops3)

/-- The `onDidAssignmentsChange` listener installed by the constructor:
drop the event when the refresher's signal is already aborted. -/
def onAssignmentsChange (now : Int) (e : AssignmentChangeEvent)
    (st : RefState) : RefState × List RefOp :=
  if st.aborted then (st, []) else handleAssignmentChange now e st

/-- The head of `refresh`: skip (with a trace log) when the server is no
longer tracked, otherwise issue the `refreshConnection` call. -/
def refreshStart (srv : ServerRec) (st : RefState) : RefState × List RefOp :=
  if (st.refreshes.lookup srv.id).isSome then
    (st, [.logTrace, .refreshCall srv.id])
  else (st, [.logTrace])

/-- `maybeRetry`: skip when aborted; retry with a warning when the
remaining time to expiry exceeds the retry buffer; otherwise log an error
and stop tracking the server. -/
def maybeRetry (now : Int) (srv : ServerRec) (st : RefState) :
    RefState × List RefOp :=
  if st.aborted then (st, [])
  else if !(srv.tokenExpiry.time - now > RETRY_BUFFER_MS) then
    let (st1, ops1) := clear srv.id st
    (st1, .logError :: ops1)
  else
    let (st1, ops1) := scheduleRefresh srv RETRY_BUFFER_MS st
    (st1, .logWarn :: ops1)

/-- Failure kinds distinguishable by the `catch` clause of `refresh`. -/
inductive RefreshError
  | notFound
  | other
deriving DecidableEq, Repr

/-- The `catch` clause of `refresh` when `refreshConnection` failed with
`err`: an abort of this refresher is skipped with a trace log; a
`NotFoundError` clears the server; anything else goes to `maybeRetry`. -/
def refreshFailure (now : Int) (srv : ServerRec) (err : RefreshError)
    (st : RefState) : RefState × List RefOp :=
  if st.aborted then (st, [.logTrace])
  else
    match err with
    | .notFound =>
      let (st1, ops1) := clear srv.id st
      (st1, .logTrace :: ops1)
    | .other => maybeRetry now srv st

/-- A timer callback installed by `scheduleRefresh` firing for `srv`:
return immediately when the refresher's signal is aborted, otherwise run
the head of `refresh`. -/
def timerFire (srv : ServerRec) (st : RefState) : RefState × List RefOp :=
  if st.aborted then (st, []) else refreshStart srv st

/-- A sequence of timer callbacks firing. -/
def timerFires (srvs : List ServerRec) (st : RefState) :
    RefState × List RefOp :=
  match srvs with
  | [] => (st, [])
  | srv :: rest =>
    let (st1, ops1) := timerFire srv st
    let (st2, ops2) := timerFires rest st1
    (st2, ops1 ++ ops2)

/-- `dispose`: abort the signal, clear every pending timer, empty the
map. -/
def RefState.dispose (st : RefState) : RefState × List RefOp :=
  (⟨[], true⟩, st.refreshes.map fun p => .clearTimer p.1)

/-! ## ConnectionRefreshController.turnOn (src/colab/connection-refresher.ts) -/

/-- Outcome of `ConnectionRefreshController.turnOn` once
`ConnectionRefresher.initialize` has returned the freshly built refresher
`fresh`, with `signalAborted` the value of `signal.aborted` observed at
that point and `cur` the previously installed refresher (`this.refresher`).
`installed` is the value of `this.refresher` after `turnOn`; `freshAfter`
and `prevAfter` the resulting states of the fresh and previous
refreshers. -/
structure TurnOnResult where
  installed : Option RefState
  freshAfter : RefState
  prevAfter : Option RefState
deriving DecidableEq, Repr

/-- `turnOn` after `initialize` resolves: if the signal was aborted,
dispose the fresh refresher and return (leaving `this.refresher` alone);
otherwise dispose any previous refresher and install the fresh one. -/
def refreshControllerTurnOn (signalAborted : Bool) (fresh : RefState)
    (cur : Option RefState) : TurnOnResult :=
  if signalAborted then ⟨cur, (RefState.dispose fresh).1, cur⟩
  else ⟨some fresh, fresh, cur.map fun c => (RefState.dispose c).1⟩

/-! ## LanguageClientController (src/lsp/language-client.ts)

A server is represented by its `endpoint` string; sessions
(`ColabLanguageClient` instances) get fresh `Nat` identities.  The
`latestServerEndpoint` field has no initializer in the source, so it is
embedded as `Option String` with `none` for `undefined`; `tearDownClient`
resets it to the empty string (`some ""`). -/

/-- Observable session lifecycle events of the controller. -/
inductive LSPEvent
  | openSession (id : Nat) (endpoint : String)
  | closeSession (id : Nat) (reason : String)
deriving DecidableEq, Repr

def isOpenEvent : LSPEvent → Bool
  | .openSession _ _ => true
  | _ => false

/-- State of a `LanguageClientController`: the held client (session id and
the endpoint it was opened against), the recorded
`latestServerEndpoint`, and a fresh-id supply for sessions. -/
structure LCCState where
  client : Option (Nat × String)
  latestServerEndpoint : Option String
  nextId : Nat
deriving DecidableEq, Repr

def LCCState.start : LCCState := ⟨none, none, 0⟩

/-- `tearDownClient(reason)`: no-op without a client; otherwise dispose
the client and reset `latestServerEndpoint` to the empty string. -/
def tearDownClient (reason : String) (s : LCCState) :
    LCCState × List LSPEvent :=
  match s.client with
  | none => (s, [])
  | some (id, _) =>
    ({ s with client := none, latestServerEndpoint := some "" },
     [.closeSession id reason])

/-- `connectToLatest(signal)`, with `latest` the endpoint of the server
returned by `assignments.latestServer` (or `none`) and `signalAborted` the
value of `signal?.aborted` at the check between the endpoint assignment
and the client construction. -/
def connectToLatest (latest : Option String) (signalAborted : Bool)
    (s : LCCState) : LCCState × List LSPEvent :=
  match latest with
  | none => tearDownClient "No assigned servers" s
  | some ep =>
    if s.latestServerEndpoint = some ep then (s, [])
    else
      let (s1, evs1) := tearDownClient "Newer runtime found" s
      let s2 := { s1 with latestServerEndpoint := some ep }
      if signalAborted then (s2, evs1)
      else
        let s3 := { s2 with latestServerEndpoint := some ep,
                            client := some (s2.nextId, ep),
                            nextId := s2.nextId + 1 }
        (s3, evs1 ++ [.openSession s2.nextId ep])

/-- The fields of the change notification read by the controller's
listener: endpoints of added servers and endpoints of removed servers. -/
structure LCCChangeEvent where
  added : List String
  removed : List String
deriving DecidableEq, Repr

/-- The listener's acting condition: some server was added, or some
removed server's endpoint equals the recorded latest endpoint. -/
def actsOn (e : LCCChangeEvent) (s : LCCState) : Bool :=
  !e.added.isEmpty ||
    e.removed.any fun ep => s.latestServerEndpoint = some ep

/-- The `onDidAssignmentsChange` listener: when acting, tear down the
current client ("Server removed") and reconnect to the latest server;
otherwise ignore the notification. -/
def lccHandleChange (e : LCCChangeEvent) (latest : Option String)
    (signalAborted : Bool) (s : LCCState) : LCCState × List LSPEvent :=
  if actsOn e s then
    let (s1, evs1) := tearDownClient "Server removed" s
    let (s2, evs2) := connectToLatest latest signalAborted s1
    (s2, evs1 ++ evs2)
  else (s, [])

/-- The controller-level passes: the initial reconciliation pass run by
`initialize`, a change-notification delivery, and the tear-down performed
by the disposable returned from `initialize`. -/
inductive LCCOp
  | initialPass (latest : Option String) (signalAborted : Bool)
  | notify (e : LCCChangeEvent) (latest : Option String) (signalAborted : Bool)
  | toggleOff
deriving Repr

def lccStep (s : LCCState) (op : LCCOp) : LCCState × List LSPEvent :=
  match op with
  | .initialPass latest ab => connectToLatest latest ab s
  | .notify e latest ab => lccHandleChange e latest ab s
  | .toggleOff => tearDownClient "Toggled off" s

/-- Run a sequence of controller passes from the start state,
concatenating the emitted session events. -/
def lccExec (ops : List LCCOp) : LCCState × List LSPEvent :=
  ops.foldl
    (fun acc op =>
      let r := lccStep acc.1 op
      (r.1, acc.2 ++ r.2))
    (LCCState.start, [])

/-- The sessions still open after a list of lifecycle events. -/
def liveStep (acc : List Nat) : LSPEvent → List Nat
  | .openSession id _ => acc ++ [id]
  | .closeSession id _ => acc.filter fun x => x ≠ id

def liveFrom (acc : List Nat) (evs : List LSPEvent) : List Nat :=
  evs.foldl liveStep acc

def liveAfter (evs : List LSPEvent) : List Nat := liveFrom [] evs

/-- The session ids the controller currently holds open, as a list. -/
def clientIds (s : LCCState) : List Nat :=
  match s.client with
  | some (id, _) => [id]
  | none => []

/-! ## Theorems -/

/-- Every hook micro event emitted by the toggle worker carries the
requested direction as the already-recorded `lastToggle`. -/
lemma toggleExec_hook_recorded (reqs : List ToggleDirection) :
    ∀ (s : ToggleState), ∀ ev ∈ (toggleExec reqs s).2,
      ∀ d l, ev = ToggleMicro.hook d l → l = some d := by
  induction reqs with
  | nil => intro s ev hev; simp [toggleExec] at hev
  | cons dir rest ih =>
    intro s ev hev d l hev'
    rw [toggleExec] at hev
    by_cases hc : s.lastToggle = some dir
    · simp only [toggleWorker, if_pos hc] at hev
      simp only [List.nil_append] at hev
      exact ih s ev hev d l hev'
    · simp only [toggleWorker, if_neg hc] at hev
      simp only [List.mem_append, List.mem_cons, List.mem_singleton] at hev
      rcases hev with (h1 | h2 | h3) | h4
      · rw [h1] at hev'; cases hev'
      · rw [h2] at hev'; cases hev'; rfl
      · cases h3
      · exact ih _ ev h4 d l hev'

/-- C1: over every sequence of `run()` starts, worker settlements and
`cancel()` calls on a `LatestCancelable`, at most one run is current at
any instant; the settlement of a run that is no longer current leaves the
state (in particular the current-run pointer) unchanged; and `isRunning()`
is true exactly when a current run exists whose abort signal has not been
signaled. -/
theorem latestCancelable_supervision (ops : List LCOp) (r r1 r2 : Nat) :
    ((lcExec ops).isCurrent r1 → (lcExec ops).isCurrent r2 → r1 = r2) ∧
    ((lcExec ops).curAbort ≠ some r → lcSettle r (lcExec ops) = lcExec ops) ∧
    ((lcExec ops).isRunning = true ↔
      ∃ c, (lcExec ops).curAbort = some c ∧
        (lcExec ops).signaled.contains c = false) := by
  refine ⟨fun h1 h2 => ?_, fun h => ?_, ?_⟩
  · unfold LCState.isCurrent at h1 h2
    rw [h1] at h2
    exact Option.some.inj h2
  · simp [lcSettle, h]
  · unfold LCState.isRunning
    cases h : (lcExec ops).curAbort with
    | none => simp
    | some c => simp [h]

/-- Witness for `latestCancelable_supervision` at the trace consisting of a
single `run()` start. -/
theorem latestCancelable_supervision_witness :
    (0 : Nat) = 0 ∧
    lcSettle 5 (lcExec [LCOp.runStart]) = lcExec [LCOp.runStart] ∧
    (lcExec [LCOp.runStart]).isRunning = true := by
  have h := latestCancelable_supervision [LCOp.runStart] 5 0 0
  refine ⟨h.1 (by decide) (by decide), h.2.1 (by decide), ?_⟩
  exact h.2.2.mpr ⟨0, by decide, by decide⟩

/-- C7: an `AsyncToggle` request whose direction equals the recorded
`lastToggle` returns without emitting any micro event (so the hook is not
invoked); `on(); on()` from the start state invokes the turn-on hook
exactly once; and every hook invocation happens with the requested
direction already recorded. -/
theorem asyncToggle_idempotent_on (s : ToggleState) (dir : ToggleDirection)
    (reqs : List ToggleDirection) (ev : ToggleMicro) :
    (s.lastToggle = some dir → toggleWorker dir s = (s, [])) ∧
    hookOnCount (toggleExec [ToggleDirection.on, ToggleDirection.on] ⟨none⟩).2 = 1 ∧
    (ev ∈ (toggleExec reqs ⟨none⟩).2 →
      ∀ d l, ev = ToggleMicro.hook d l → l = some d) := by
  refine ⟨fun h => ?_, by decide, fun hev => toggleExec_hook_recorded reqs ⟨none⟩ ev hev⟩
  simp [toggleWorker, h]

/-- Witness for `asyncToggle_idempotent_on`: a repeated `on` request on a
state already toggled on is a no-op, and the hook event of a single `on`
run carries the recorded direction. -/
theorem asyncToggle_idempotent_on_witness :
    toggleWorker ToggleDirection.on ⟨some ToggleDirection.on⟩ =
      (⟨some ToggleDirection.on⟩, []) ∧
    (some ToggleDirection.on : Option ToggleDirection) = some ToggleDirection.on := by
  have h := asyncToggle_idempotent_on ⟨some ToggleDirection.on⟩ ToggleDirection.on
    [ToggleDirection.on] (ToggleMicro.hook ToggleDirection.on (some ToggleDirection.on))
  exact ⟨h.1 rfl, h.2.2 (by decide) ToggleDirection.on (some ToggleDirection.on) rfl⟩

lemma lookup_filter_ne (m : List (Nat × DateObj)) (i k : Nat) (h : k ≠ i) :
    (m.filter fun p => p.1 ≠ i).lookup k = m.lookup k := by
  induction m with
  | nil => rfl
  | cons p rest ih =>
    by_cases hp : p.1 = i
    · have hb : (k == p.1) = false := by
        rw [hp]; exact beq_eq_false_iff_ne.mpr h
      have hc : (decide (p.1 ≠ i)) = false := by simp [hp]
      rw [List.filter_cons, hc]
      rw [if_neg (by simp)]
      rw [ih]
      rw [List.lookup, hb]
    · have hc : (decide (p.1 ≠ i)) = true := by simp [hp]
      rw [List.filter_cons, hc, if_pos rfl]
      rw [List.lookup, List.lookup]
      cases hkp : (k == p.1) with
      | true => rfl
      | false => exact ih

lemma lookup_filter_self (m : List (Nat × DateObj)) (k : Nat) :
    (m.filter fun p => p.1 ≠ k).lookup k = none := by
  induction m with
  | nil => rfl
  | cons p rest ih =>
    by_cases hp : p.1 = k
    · have hc : (decide (p.1 ≠ k)) = false := by simp [hp]
      rw [List.filter_cons, hc]
      rw [if_neg (by simp)]
      exact ih
    · have hc : (decide (p.1 ≠ k)) = true := by simp [hp]
      have hb : (k == p.1) = false := beq_eq_false_iff_ne.mpr (Ne.symm hp)
      rw [List.filter_cons, hc, if_pos rfl]
      rw [List.lookup, hb]
      exact ih

lemma mapSet_lookup_ne (m : List (Nat × DateObj)) (i k : Nat) (v : DateObj)
    (h : k ≠ i) : (mapSet m i v).lookup k = m.lookup k := by
  have hb : (k == i) = false := beq_eq_false_iff_ne.mpr h
  simp only [mapSet, List.lookup, hb, lookup_filter_ne m i k h]

lemma mapSet_lookup_self (m : List (Nat × DateObj)) (k : Nat) (v : DateObj) :
    (mapSet m k v).lookup k = some v := by
  simp [mapSet, List.lookup]

/-- The added loop leaves the map entry of a key not among the added ids
untouched. -/
lemma processAdded_lookup_ne (now : Int) (lst : List ServerRec) :
    ∀ (st : RefState) (k : Nat), (∀ srv ∈ lst, srv.id ≠ k) →
      (processAdded now lst st).1.refreshes.lookup k = st.refreshes.lookup k := by
  induction lst with
  | nil => intro st k _; rfl
  | cons s rest ih =>
    intro st k h
    rw [processAdded]
    have hs : s.id ≠ k := h s (List.mem_cons_self s rest)
    have hrest : ∀ srv ∈ rest, srv.id ≠ k := fun srv hm => h srv (List.mem_cons_of_mem s hm)
    simp only [scheduleRefresh]
    rw [ih _ k hrest]
    exact mapSet_lookup_ne _ _ _ _ (Ne.symm hs)

/-- The added loop emits no timer op for a key not among the added ids. -/
lemma processAdded_ops_ne (now : Int) (lst : List ServerRec) :
    ∀ (st : RefState) (k : Nat), (∀ srv ∈ lst, srv.id ≠ k) →
      ∀ op ∈ (processAdded now lst st).2, timerOpFor k op = false := by
  induction lst with
  | nil => intro st k _ op hop; simp [processAdded] at hop
  | cons s rest ih =>
    intro st k h op hop
    rw [processAdded] at hop
    simp only [scheduleRefresh, List.cons_append, List.nil_append,
      List.mem_cons] at hop
    rcases hop with h1 | h1 | h1
    · rw [h1]; simp [timerOpFor, h s (List.mem_cons_self s rest)]
    · rw [h1]; simp [timerOpFor]
    · exact ih _ k (fun srv hm => h srv (List.mem_cons_of_mem s hm)) op h1

/-- A single-entry changed list whose expiry matches the recorded one
short-circuits the handler with no state change and no ops. -/
lemma processChanged_single_eq (now : Int) (k : Nat) (x : DateObj) (st : RefState)
    (h : st.refreshes.lookup k = some x) :
    processChanged now [⟨k, x⟩] st = (st, [], true) := by
  simp [processChanged, h]

/-- C2 counterexample: the claim "a changed entry whose token expiry
equals the previously recorded expiry for that key is ignored, leaving
the map entry and its pending timer unchanged" fails on the code, whose
comparison `r.expiry === s.connectionInformation.tokenExpiry` is Date
reference equality.  With key 3 tracked under the Date allocated with tag
0 at 500 ms, a changed entry carrying a fresh Date (tag 1) with the same
500 ms value is treated as changed: the timer for key 3 is cleared, a new
one is scheduled, and the map entry is replaced. -/
theorem refresher_value_equal_date_cex :
    (handleAssignmentChange 0 ⟨[], [⟨3, ⟨1, 500⟩⟩], []⟩
        ⟨[(3, ⟨0, 500⟩)], false⟩).2 =
      [RefOp.clearTimer 3, RefOp.setTimer 3 100, RefOp.logTrace] ∧
    (handleAssignmentChange 0 ⟨[], [⟨3, ⟨1, 500⟩⟩], []⟩
        ⟨[(3, ⟨0, 500⟩)], false⟩).1.refreshes.lookup 3 =
      some ⟨1, 500⟩ := by
  exact ⟨by decide, by decide⟩

/-- C2 as amended: a changed entry is ignored only when its token expiry
is the very Date object recorded for that key (reference equality, the
code's `===`); then the key's map entry is unchanged and no timer is
cleared or set for that key (the added entries of the same notification
being for other keys).  A value-equal but distinct Date object is instead
treated as a change. -/
theorem refresher_same_date_object_ignored (now : Int) (st : RefState)
    (k : Nat) (x : DateObj) (added removed : List ServerRec)
    (hk : st.refreshes.lookup k = some x)
    (hadd : ∀ srv ∈ added, srv.id ≠ k) :
    (handleAssignmentChange now ⟨added, [⟨k, x⟩], removed⟩ st).1.refreshes.lookup k
        = some x ∧
    ∀ op ∈ (handleAssignmentChange now ⟨added, [⟨k, x⟩], removed⟩ st).2,
      timerOpFor k op = false := by
  have h1 : (processAdded now added st).1.refreshes.lookup k = some x := by
    rw [processAdded_lookup_ne now added st k hadd]; exact hk
  have h2 : processChanged now [(⟨k, x⟩ : ServerRec)] (processAdded now added st).1 =
      ((processAdded now added st).1, [], true) :=
    processChanged_single_eq now k x _ h1
  have h3 : handleAssignmentChange now ⟨added, [⟨k, x⟩], removed⟩ st =
      ((processAdded now added st).1, (processAdded now added st).2) := by
    simp [handleAssignmentChange, h2]
  rw [h3]
  exact ⟨h1, fun op hop => processAdded_ops_ne now added st k hadd op hop⟩

/-- Witness for `refresher_same_date_object_ignored` at a concrete state
tracking key 3 with the Date object tagged 2 at 500 ms, re-presented by
the changed entry. -/
theorem refresher_same_date_object_ignored_witness :
    (handleAssignmentChange 0
        ⟨[⟨4, ⟨0, 900⟩⟩], [⟨3, ⟨2, 500⟩⟩], [⟨3, ⟨2, 500⟩⟩]⟩
        ⟨[(3, ⟨2, 500⟩)], false⟩).1.refreshes.lookup 3 = some ⟨2, 500⟩ := by
  exact (refresher_same_date_object_ignored 0 ⟨[(3, ⟨2, 500⟩)], false⟩ 3
    ⟨2, 500⟩ [⟨4, ⟨0, 900⟩⟩] [⟨3, ⟨2, 500⟩⟩] (by decide) (by decide)).1

lemma lookup_filter_none (m : List (Nat × DateObj)) (p : Nat × DateObj → Bool)
    (k : Nat) (h : m.lookup k = none) : (m.filter p).lookup k = none := by
  induction m with
  | nil => rfl
  | cons q rest ih =>
    rw [List.lookup] at h
    cases hkq : (k == q.1) with
    | true => rw [hkq] at h; cases h
    | false =>
      rw [hkq] at h
      rw [List.filter_cons]
      cases hpq : p q with
      | true => rw [if_pos rfl, List.lookup, hkq]; exact ih h
      | false =>
        rw [if_neg (by simp)]
        exact ih h

lemma clear_lookup_self (k : Nat) (st : RefState) :
    (clear k st).1.refreshes.lookup k = none := by
  rw [clear]
  cases h : st.refreshes.lookup k with
  | none => exact h
  | some v => exact lookup_filter_self st.refreshes k

lemma clear_preserves_none (k k' : Nat) (st : RefState)
    (h : st.refreshes.lookup k = none) :
    (clear k' st).1.refreshes.lookup k = none := by
  rw [clear]
  cases h' : st.refreshes.lookup k' with
  | none => exact h
  | some v => exact lookup_filter_none st.refreshes _ k h

lemma processRemoved_preserves_none (lst : List ServerRec) :
    ∀ (st : RefState) (k : Nat), st.refreshes.lookup k = none →
      (processRemoved lst st).1.refreshes.lookup k = none := by
  induction lst with
  | nil => intro st k h; exact h
  | cons s rest ih =>
    intro st k h
    rw [processRemoved]
    exact ih _ k (clear_preserves_none k s.id st h)

/-- After the removed loop, every listed server is untracked. -/
lemma processRemoved_lookup_none (lst : List ServerRec) :
    ∀ (st : RefState), ∀ srv ∈ lst,
      (processRemoved lst st).1.refreshes.lookup srv.id = none := by
  induction lst with
  | nil => intro st srv hm; cases hm
  | cons s rest ih =>
    intro st srv hm
    rw [processRemoved]
    rcases List.mem_cons.mp hm with h | h
    · rw [h]
      exact processRemoved_preserves_none rest _ s.id (clear_lookup_self s.id st)
    · exact ih _ srv h

/-- A changed entry whose key is untracked makes the changed loop return
from the whole handler after logging an error. -/
lemma processChanged_untracked (now : Int) (c : ServerRec)
    (rest : List ServerRec) (st : RefState)
    (h : st.refreshes.lookup c.id = none) :
    processChanged now (c :: rest) st = (st, [RefOp.logError], true) := by
  simp [processChanged, h]

/-- C3 counterexample: the claim "every resource in the notification's
removed list has its timer cleared and is removed from tracking,
regardless of what the changed list contains; an untracked changed entry
aborts handling for that entry only" fails on the code.  With server 2
tracked, a notification whose changed list names the untracked server 1
and whose removed list names server 2 leaves server 2 tracked with its
timer pending: the `return` in the changed loop aborts the whole handler,
so the removed loop never runs and no `clearTimeout` is issued for
server 2. -/
theorem refresher_removed_skipped_cex :
    (handleAssignmentChange 0 ⟨[], [⟨1, ⟨0, 99⟩⟩], [⟨2, ⟨0, 50⟩⟩]⟩
        ⟨[(2, ⟨0, 50⟩)], false⟩).1.refreshes.lookup 2 = some ⟨0, 50⟩ ∧
    (handleAssignmentChange 0 ⟨[], [⟨1, ⟨0, 99⟩⟩], [⟨2, ⟨0, 50⟩⟩]⟩
        ⟨[(2, ⟨0, 50⟩)], false⟩).2 = [RefOp.logError] := by
  exact ⟨by decide, by decide⟩

/-- C3 as amended: every resource in the removed list is untracked after
the handler provided no changed entry short-circuited the changed loop;
and a changed entry referencing an untracked key is logged at error level
with the handler returning normally (no crash), but it aborts handling of
the entire remainder of the notification — the removed list included —
not just that entry. -/
theorem refresher_untracked_aborts_amended (now : Int)
    (e : AssignmentChangeEvent) (st : RefState) :
    ((processChanged now e.changed (processAdded now e.added st).1).2.2 = false →
      ∀ srv ∈ e.removed,
        (handleAssignmentChange now e st).1.refreshes.lookup srv.id = none) ∧
    (∀ c rest, e.changed = c :: rest →
      (processAdded now e.added st).1.refreshes.lookup c.id = none →
      handleAssignmentChange now e st =
        ((processAdded now e.added st).1,
         (processAdded now e.added st).2 ++ [RefOp.logError])) := by
  constructor
  · intro h srv hm
    simp only [handleAssignmentChange, h, Bool.false_eq_true, if_false]
    exact processRemoved_lookup_none e.removed _ srv hm
  · intro c rest hch hnone
    simp only [handleAssignmentChange, hch, processChanged_untracked now c rest _ hnone,
      if_true]

/-- Witness for `refresher_untracked_aborts_amended`: concrete
instantiation of both conjuncts. -/
theorem refresher_untracked_aborts_amended_witness :
    (handleAssignmentChange 0 ⟨[], [], [⟨2, ⟨0, 50⟩⟩]⟩
        ⟨[(2, ⟨0, 50⟩)], false⟩).1.refreshes.lookup 2 = none ∧
    handleAssignmentChange 0 ⟨[], [⟨1, ⟨0, 99⟩⟩], [⟨2, ⟨0, 50⟩⟩]⟩ ⟨[(2, ⟨0, 50⟩)], false⟩ =
      (⟨[(2, ⟨0, 50⟩)], false⟩, [RefOp.logError]) := by
  have h := refresher_untracked_aborts_amended 0 ⟨[], [], [⟨2, ⟨0, 50⟩⟩]⟩
    ⟨[(2, ⟨0, 50⟩)], false⟩
  have h2 := refresher_untracked_aborts_amended 0 ⟨[], [⟨1, ⟨0, 99⟩⟩], [⟨2, ⟨0, 50⟩⟩]⟩
    ⟨[(2, ⟨0, 50⟩)], false⟩
  exact ⟨h.1 (by decide) ⟨2, ⟨0, 50⟩⟩ (by decide),
    h2.2 ⟨1, ⟨0, 99⟩⟩ [] rfl (by decide)⟩

/-- C6: handling of a failed refresh.  With the refresher not disposed:
a non-not-found failure schedules exactly one retry timer firing after
`RETRY_BUFFER_MS` (30 seconds) with a warning when the remaining time to
expiry exceeds the retry buffer; otherwise it logs an error, drops the
resource from tracking, sets no timer, and a later timer callback for the
resource issues no further refresh call; a not-found failure drops the
resource from tracking; and after disposal the failure is skipped with
only a trace log and no state change. -/
theorem refresher_retry_policy (now : Int) (srv : ServerRec)
    (st : RefState) :
    (st.aborted = false → srv.tokenExpiry.time - now > RETRY_BUFFER_MS →
      refreshFailure now srv RefreshError.other st =
        ({ st with refreshes := mapSet st.refreshes srv.id srv.tokenExpiry },
         [RefOp.logWarn, RefOp.setTimer srv.id RETRY_BUFFER_MS,
          RefOp.logTrace])) ∧
    (st.aborted = false → ¬(srv.tokenExpiry.time - now > RETRY_BUFFER_MS) →
      (refreshFailure now srv RefreshError.other st).1.refreshes.lookup srv.id
          = none ∧
      RefOp.logError ∈ (refreshFailure now srv RefreshError.other st).2 ∧
      (∀ op ∈ (refreshFailure now srv RefreshError.other st).2,
        isSetTimerOp op = false) ∧
      (refreshStart srv
          (refreshFailure now srv RefreshError.other st).1).2 =
        [RefOp.logTrace]) ∧
    (st.aborted = false →
      (refreshFailure now srv RefreshError.notFound st).1.refreshes.lookup srv.id
          = none) ∧
    (st.aborted = true → ∀ err,
      refreshFailure now srv err st = (st, [RefOp.logTrace])) := by
  refine ⟨fun hab hcan => ?_, fun hab hcan => ?_, fun hab => ?_, fun hab err => ?_⟩
  · have hc : (decide (srv.tokenExpiry.time - now > RETRY_BUFFER_MS)) = true := by
      simp [hcan]
    simp [refreshFailure, maybeRetry, hab, hc, scheduleRefresh]
  · have hc : (decide (srv.tokenExpiry.time - now > RETRY_BUFFER_MS)) = false := by
      simp [hcan]
    have hmain : refreshFailure now srv RefreshError.other st =
        ((clear srv.id st).1, RefOp.logError :: (clear srv.id st).2) := by
      simp [refreshFailure, maybeRetry, hab, hc]
    rw [hmain]
    refine ⟨clear_lookup_self srv.id st, List.mem_cons_self _ _, ?_, ?_⟩
    · intro op hop
      rcases List.mem_cons.mp hop with h | h
      · rw [h]; rfl
      · rw [clear] at h
        cases hl : st.refreshes.lookup srv.id with
        | none => rw [hl] at h; cases h
        | some v =>
          rw [hl] at h
          rcases List.mem_singleton.mp h with rfl
          rfl
    · have : (clear srv.id st).1.refreshes.lookup srv.id = none :=
        clear_lookup_self srv.id st
      simp [refreshStart, this]
  · simp [refreshFailure, hab, clear_lookup_self]
  · cases err <;> simp [refreshFailure, hab]

/-- Witness for `refresher_retry_policy`: both the retry branch (expiry
far away) and the give-up branch (expiry close) at concrete inputs. -/
theorem refresher_retry_policy_witness :
    refreshFailure 0 ⟨7, ⟨0, 100000⟩⟩ RefreshError.other ⟨[(7, ⟨0, 100000⟩)], false⟩ =
      (⟨[(7, ⟨0, 100000⟩)], false⟩,
       [RefOp.logWarn, RefOp.setTimer 7 RETRY_BUFFER_MS, RefOp.logTrace]) ∧
    (refreshFailure 0 ⟨8, ⟨0, 20000⟩⟩ RefreshError.other
        ⟨[(8, ⟨0, 20000⟩)], false⟩).1.refreshes.lookup 8 = none ∧
    refreshFailure 0 ⟨9, ⟨0, 50⟩⟩ RefreshError.notFound ⟨[], true⟩ =
      (⟨[], true⟩, [RefOp.logTrace]) := by
  have h1 := refresher_retry_policy 0 ⟨7, ⟨0, 100000⟩⟩ ⟨[(7, ⟨0, 100000⟩)], false⟩
  have h2 := refresher_retry_policy 0 ⟨8, ⟨0, 20000⟩⟩ ⟨[(8, ⟨0, 20000⟩)], false⟩
  have h3 := refresher_retry_policy 0 ⟨9, ⟨0, 50⟩⟩ ⟨[], true⟩
  refine ⟨?_, (h2.2.1 rfl (by decide)).1, h3.2.2.2 rfl RefreshError.notFound⟩
  have := h1.1 rfl (by decide)
  rw [this]
  decide

/-- Timer callbacks of a disposed (aborted) refresher never do anything:
no state change and no ops, over any sequence of fires. -/
lemma timerFires_aborted (fires : List ServerRec) (st : RefState)
    (h : st.aborted = true) : timerFires fires st = (st, []) := by
  induction fires with
  | nil => rfl
  | cons srv rest ih =>
    rw [timerFires]
    simp [timerFire, h, ih]

/-- C8: once `ConnectionRefresher.initialize` resolves inside `turnOn`,
if the turn-on signal is observed aborted, the freshly built refresher is
disposed (signal aborted, timers cleared) without being installed —
`this.refresher` keeps its previous value — and no sequence of timer
callbacks belonging to the fresh refresher ever produces a refresh (or any
other op); if the signal is not aborted, the fresh refresher is installed
and any previously installed refresher is disposed. -/
theorem refreshController_abort_race (ab : Bool) (fresh : RefState)
    (cur : Option RefState) :
    (ab = true →
      (refreshControllerTurnOn ab fresh cur).installed = cur ∧
      (refreshControllerTurnOn ab fresh cur).freshAfter.aborted = true ∧
      (refreshControllerTurnOn ab fresh cur).freshAfter.refreshes = [] ∧
      ∀ fires, timerFires fires (refreshControllerTurnOn ab fresh cur).freshAfter =
        ((refreshControllerTurnOn ab fresh cur).freshAfter, [])) ∧
    (ab = false →
      (refreshControllerTurnOn ab fresh cur).installed = some fresh ∧
      (refreshControllerTurnOn ab fresh cur).prevAfter =
        cur.map (fun c => (RefState.dispose c).1) ∧
      ∀ c, cur = some c →
        (refreshControllerTurnOn ab fresh cur).prevAfter.map RefState.aborted =
          some true) := by
  constructor
  · intro h
    subst h
    refine ⟨rfl, rfl, rfl, fun fires => ?_⟩
    exact timerFires_aborted fires _ rfl
  · intro h
    subst h
    refine ⟨rfl, rfl, fun c hc => ?_⟩
    subst hc
    rfl

/-- Witness for `refreshController_abort_race`: the abort race at a
concrete fresh refresher tracking one server, and the install path. -/
theorem refreshController_abort_race_witness :
    (refreshControllerTurnOn true ⟨[(3, ⟨0, 900⟩)], false⟩
        (some ⟨[(5, ⟨0, 100⟩)], false⟩)).installed = some ⟨[(5, ⟨0, 100⟩)], false⟩ ∧
    timerFires [⟨3, ⟨0, 900⟩⟩]
        (refreshControllerTurnOn true ⟨[(3, ⟨0, 900⟩)], false⟩
          (some ⟨[(5, ⟨0, 100⟩)], false⟩)).freshAfter =
      ((refreshControllerTurnOn true ⟨[(3, ⟨0, 900⟩)], false⟩
          (some ⟨[(5, ⟨0, 100⟩)], false⟩)).freshAfter, []) ∧
    (refreshControllerTurnOn false ⟨[(3, ⟨0, 900⟩)], false⟩
        (some ⟨[(5, ⟨0, 100⟩)], false⟩)).installed = some ⟨[(3, ⟨0, 900⟩)], false⟩ := by
  have h := refreshController_abort_race true ⟨[(3, ⟨0, 900⟩)], false⟩
    (some ⟨[(5, ⟨0, 100⟩)], false⟩)
  have h2 := refreshController_abort_race false ⟨[(3, ⟨0, 900⟩)], false⟩
    (some ⟨[(5, ⟨0, 100⟩)], false⟩)
  exact ⟨(h.1 rfl).1, (h.1 rfl).2.2.2 [⟨3, ⟨0, 900⟩⟩], (h2.2 rfl).1⟩

/-- The timer-delay formula as the spec states it, parameterized over the
refresh buffer and the minimum delay. -/
def bufferedDelaySpec (expiry now refreshBuffer minimumDelay : Int) : Int :=
  max (expiry - now - refreshBuffer) minimumDelay

/-- C9 counterexample: not every scheduled refresh timer has delay
`max(tokenExpiry − now − 5 minutes, 100 ms)`.  A failed refresh for a
server whose expiry is 400 s away schedules its retry timer with the
fixed 30 s retry delay, while the buffered formula gives 100 s. -/
theorem refresher_retry_delay_cex :
    RefOp.setTimer 7 RETRY_BUFFER_MS ∈
      (maybeRetry 0 ⟨7, ⟨0, 400000⟩⟩ ⟨[(7, ⟨0, 400000⟩)], false⟩).2 ∧
    RETRY_BUFFER_MS ≠ bufferedRefreshDelay 0 ⟨7, ⟨0, 400000⟩⟩ := by
  exact ⟨by decide, by decide⟩

/-- Every timer op emitted by the added loop carries the buffered delay of
the corresponding added server. -/
lemma processAdded_setTimer_delay (now : Int) (lst : List ServerRec) :
    ∀ (st : RefState) (k : Nat) (d : Int),
      RefOp.setTimer k d ∈ (processAdded now lst st).2 →
      ∃ s ∈ lst, s.id = k ∧ d = bufferedRefreshDelay now s := by
  induction lst with
  | nil => intro st k d h; simp [processAdded] at h
  | cons s rest ih =>
    intro st k d h
    rw [processAdded] at h
    simp only [scheduleRefresh, List.cons_append, List.nil_append,
      List.mem_cons] at h
    rcases h with h | h | h
    · cases h
      exact ⟨s, List.mem_cons_self s rest, rfl, rfl⟩
    · cases h
    · obtain ⟨s', hm, hid, hd⟩ := ih _ k d h
      exact ⟨s', List.mem_cons_of_mem s hm, hid, hd⟩

/-- Unfolding of the changed loop at a tracked entry whose expiry
changed. -/
lemma processChanged_cons_some_ne (now : Int) (s : ServerRec)
    (rest : List ServerRec) (st : RefState) (x : DateObj)
    (hl : st.refreshes.lookup s.id = some x) (hx : x ≠ s.tokenExpiry) :
    processChanged now (s :: rest) st =
      ((processChanged now rest
          (scheduleRefresh s (bufferedRefreshDelay now s) (clear s.id st).1).1).1,
       (clear s.id st).2 ++
         (scheduleRefresh s (bufferedRefreshDelay now s) (clear s.id st).1).2 ++
         (processChanged now rest
           (scheduleRefresh s (bufferedRefreshDelay now s) (clear s.id st).1).1).2.1,
       (processChanged now rest
         (scheduleRefresh s (bufferedRefreshDelay now s) (clear s.id st).1).1).2.2) := by
  simp [processChanged, hl, hx]

/-- Every timer op emitted by the changed loop carries the buffered delay
of the corresponding changed server. -/
lemma processChanged_setTimer_delay (now : Int) (lst : List ServerRec) :
    ∀ (st : RefState) (k : Nat) (d : Int),
      RefOp.setTimer k d ∈ (processChanged now lst st).2.1 →
      ∃ s ∈ lst, s.id = k ∧ d = bufferedRefreshDelay now s := by
  induction lst with
  | nil => intro st k d h; simp [processChanged] at h
  | cons s rest ih =>
    intro st k d h
    rcases hl : st.refreshes.lookup s.id with _ | x
    · rw [processChanged] at h
      rw [hl] at h
      simp at h
    · by_cases hx : x = s.tokenExpiry
      · rw [processChanged] at h
        rw [hl] at h
        simp [hx] at h
      · rw [processChanged_cons_some_ne now s rest st x hl hx] at h
        simp only [scheduleRefresh, List.mem_append, List.mem_cons] at h
        rcases h with (h | h) | h
        · rw [clear] at h
          cases hc : st.refreshes.lookup s.id with
          | none => rw [hc] at h; cases h
          | some v =>
            rw [hc] at h
            simp at h
        · rcases h with h | h | h
          · cases h
            exact ⟨s, List.mem_cons_self s rest, rfl, rfl⟩
          · cases h
          · cases h
        · obtain ⟨s', hm, hid, hd⟩ := ih _ k d h
          exact ⟨s', List.mem_cons_of_mem s hm, hid, hd⟩

/-- C9 as amended: every refresh timer scheduled by the default
(non-retry) scheduling paths — the added loop and the changed loop — has
delay `max(tokenExpiry − now − REFRESH_BUFFER_MS, 100)` for its server;
the code's delay function is exactly the spec's formula instantiated at a
5-minute refresh buffer and 100 ms minimum delay; retry timers instead use
the fixed 30 s retry delay; and under the spec formula with a 300 ms
buffer and 100 ms minimum, a resource expiring 1000 ms from now is
scheduled at exactly 700 ms. -/
theorem refresher_delay_formula_amended (now : Int) (lst : List ServerRec)
    (st : RefState) (k : Nat) (d : Int) (srv : ServerRec) :
    (RefOp.setTimer k d ∈ (processAdded now lst st).2 →
      ∃ s ∈ lst, s.id = k ∧ d = bufferedRefreshDelay now s) ∧
    (RefOp.setTimer k d ∈ (processChanged now lst st).2.1 →
      ∃ s ∈ lst, s.id = k ∧ d = bufferedRefreshDelay now s) ∧
    bufferedRefreshDelay now srv =
      bufferedDelaySpec srv.tokenExpiry.time now REFRESH_BUFFER_MS 100 ∧
    (st.aborted = false → srv.tokenExpiry.time - now > RETRY_BUFFER_MS →
      RefOp.setTimer srv.id RETRY_BUFFER_MS ∈ (maybeRetry now srv st).2) ∧
    bufferedDelaySpec (now + 1000) now 300 100 = 700 := by
  refine ⟨fun h => processAdded_setTimer_delay now lst st k d h,
    fun h => processChanged_setTimer_delay now lst st k d h, rfl,
    fun hab hcan => ?_, ?_⟩
  · have hc : (decide (srv.tokenExpiry.time - now > RETRY_BUFFER_MS)) = true := by
      simp [hcan]
    simp [maybeRetry, hab, hc, scheduleRefresh]
  · have h1 : now + 1000 - now - 300 = 700 := by ring
    rw [bufferedDelaySpec, h1]
    decide

/-- Witness for `refresher_delay_formula_amended` at a concrete added
notification and a concrete retry. -/
theorem refresher_delay_formula_amended_witness :
    (∃ s ∈ [(⟨4, ⟨0, 500000⟩⟩ : ServerRec)], s.id = 4 ∧
      bufferedRefreshDelay 0 ⟨4, ⟨0, 500000⟩⟩ = bufferedRefreshDelay 0 s) ∧
    RefOp.setTimer 7 RETRY_BUFFER_MS ∈
      (maybeRetry 0 ⟨7, ⟨0, 400000⟩⟩ ⟨[(7, ⟨0, 400000⟩)], false⟩).2 ∧
    bufferedDelaySpec (0 + 1000) 0 300 100 = 700 := by
  have h := refresher_delay_formula_amended 0 [⟨4, ⟨0, 500000⟩⟩]
    ⟨[], false⟩ 4 (bufferedRefreshDelay 0 ⟨4, ⟨0, 500000⟩⟩) ⟨4, ⟨0, 500000⟩⟩
  have h2 := refresher_delay_formula_amended 0 []
    ⟨[(7, ⟨0, 400000⟩)], false⟩ 0 0 ⟨7, ⟨0, 400000⟩⟩
  exact ⟨h.1 (by decide), h2.2.2.2.1 rfl (by decide), h.2.2.2.2⟩

/-- Tear-down emits only close events. -/
lemma tearDown_no_open (reason : String) (s : LCCState) :
    ∀ op ∈ (tearDownClient reason s).2, isOpenEvent op = false := by
  intro op hop
  rw [tearDownClient] at hop
  cases hc : s.client with
  | none => rw [hc] at hop; cases hop
  | some c =>
    rw [hc] at hop
    rcases List.mem_singleton.mp hop with rfl
    rfl

/-- A reconciliation pass opens a session exactly when a latest server
exists, the signal is unaborted at the check, and the latest endpoint
differs from the recorded one. -/
lemma connect_open_iff (latest : Option String) (ab : Bool) (s : LCCState) :
    (∃ op ∈ (connectToLatest latest ab s).2, isOpenEvent op = true) ↔
      ∃ ep, latest = some ep ∧ ab = false ∧
        s.latestServerEndpoint ≠ some ep := by
  cases latest with
  | none =>
    simp only [connectToLatest]
    constructor
    · rintro ⟨op, hop, hopen⟩
      rw [tearDown_no_open _ s op hop] at hopen
      cases hopen
    · rintro ⟨ep, h, _⟩
      cases h
  | some ep =>
    by_cases heq : s.latestServerEndpoint = some ep
    · simp only [connectToLatest, if_pos heq]
      constructor
      · rintro ⟨op, hop, _⟩
        cases hop
      · rintro ⟨ep', hep', _, hne⟩
        rcases Option.some.inj hep' with rfl
        exact absurd heq hne
    · cases ab with
      | true =>
        simp only [connectToLatest, if_neg heq, if_pos rfl]
        constructor
        · rintro ⟨op, hop, hopen⟩
          rw [tearDown_no_open _ s op hop] at hopen
          cases hopen
        · rintro ⟨ep', hep', hab, _⟩
          cases hab
      | false =>
        simp only [connectToLatest, if_neg heq, Bool.false_eq_true, if_false]
        constructor
        · rintro _
          exact ⟨ep, rfl, by trivial, heq⟩
        · rintro _
          refine ⟨LSPEvent.openSession (tearDownClient "Newer runtime found" s).1.nextId ep, ?_, rfl⟩
          exact List.mem_append_right _ (List.mem_singleton.mpr rfl)

/-- C4 counterexample: the claim "a new connection is opened iff the
fetched latest resource's endpoint differs from the endpoint of the
connection that was just torn down" fails on the code.  Holding a
connection to endpoint `A` with `A` recorded, an acting notification
(added nonempty) whose latest server is still at endpoint `A` tears the
`A`-connection down — which resets the recorded endpoint to the empty
string — and then opens a fresh connection to the same endpoint `A`. -/
theorem reconciler_reopen_same_endpoint_cex :
    (lccHandleChange ⟨["B"], []⟩ (some "A") false
        ⟨some (0, "A"), some "A", 1⟩).2 =
      [LSPEvent.closeSession 0 "Server removed", LSPEvent.openSession 1 "A"] ∧
    (lccHandleChange ⟨["B"], []⟩ (some "A") false
        ⟨some (0, "A"), some "A", 1⟩).1.client = some (1, "A") := by
  exact ⟨rfl, rfl⟩

/-- C4 as amended: when the controller acts on a change notification, it
tears down the held connection (emitting its close), and a new connection
is opened iff the fetched latest resource exists, the abort signal is
unobserved, and its endpoint differs from the endpoint recorded *after*
the tear-down — which is the empty string whenever a connection was
actually held, so a held connection is reopened even to an unchanged
latest endpoint. -/
theorem reconciler_open_iff_amended (e : LCCChangeEvent)
    (latest : Option String) (ab : Bool) (s : LCCState)
    (h : actsOn e s = true) :
    (∀ id ep, s.client = some (id, ep) →
      LSPEvent.closeSession id "Server removed" ∈
        (lccHandleChange e latest ab s).2) ∧
    ((∃ op ∈ (lccHandleChange e latest ab s).2, isOpenEvent op = true) ↔
      ∃ ep, latest = some ep ∧ ab = false ∧
        (tearDownClient "Server removed" s).1.latestServerEndpoint ≠ some ep) := by
  have hmain : lccHandleChange e latest ab s =
      ((connectToLatest latest ab (tearDownClient "Server removed" s).1).1,
       (tearDownClient "Server removed" s).2 ++
         (connectToLatest latest ab (tearDownClient "Server removed" s).1).2) := by
    simp [lccHandleChange, h]
  rw [hmain]
  constructor
  · intro id ep hc
    apply List.mem_append_left
    rw [tearDownClient, hc]
    exact List.mem_singleton.mpr rfl
  · constructor
    · rintro ⟨op, hop, hopen⟩
      rcases List.mem_append.mp hop with hl | hr
      · rw [tearDown_no_open _ s op hl] at hopen
        cases hopen
      · exact (connect_open_iff latest ab _).mp ⟨op, hr, hopen⟩
    · intro hr
      obtain ⟨op, hop, hopen⟩ := (connect_open_iff latest ab _).mpr hr
      exact ⟨op, List.mem_append_right _ hop, hopen⟩

/-- Witness for `reconciler_open_iff_amended` at the counterexample
input: the held `A`-session's close is emitted and an open exists because
the post-tear-down recorded endpoint is the empty string. -/
theorem reconciler_open_iff_amended_witness :
    LSPEvent.closeSession 0 "Server removed" ∈
      (lccHandleChange ⟨["B"], []⟩ (some "A") false
        ⟨some (0, "A"), some "A", 1⟩).2 ∧
    (∃ op ∈ (lccHandleChange ⟨["B"], []⟩ (some "A") false
        ⟨some (0, "A"), some "A", 1⟩).2, isOpenEvent op = true) := by
  have h := reconciler_open_iff_amended ⟨["B"], []⟩ (some "A") false
    ⟨some (0, "A"), some "A", 1⟩ (by decide)
  refine ⟨h.1 0 "A" rfl, h.2.mpr ⟨"A", rfl, rfl, by decide⟩⟩

/-- C10: when the abort signal is observed mid-pass — after a latest
server with a differing endpoint was fetched and the held connection torn
down — the pass returns with no session open, no open event emitted, and
the recorded latest endpoint already set to the fetched endpoint; a
subsequent pass fetching the same latest endpoint is a complete no-op
(no events, no state change), so no connection is opened. -/
theorem reconciler_aborted_midpass (s : LCCState) (id : Nat)
    (epc ep : String) (hc : s.client = some (id, epc))
    (hne : s.latestServerEndpoint ≠ some ep) :
    (connectToLatest (some ep) true s).1.client = none ∧
    (connectToLatest (some ep) true s).1.latestServerEndpoint = some ep ∧
    (∀ op ∈ (connectToLatest (some ep) true s).2, isOpenEvent op = false) ∧
    (∀ b, connectToLatest (some ep) b (connectToLatest (some ep) true s).1 =
      ((connectToLatest (some ep) true s).1, [])) := by
  have h1 : connectToLatest (some ep) true s =
      ({ s with client := none, latestServerEndpoint := some ep },
       [LSPEvent.closeSession id "Newer runtime found"]) := by
    simp [connectToLatest, hne, tearDownClient, hc]
  rw [h1]
  refine ⟨rfl, rfl, ?_, fun b => ?_⟩
  · intro op hop
    rcases List.mem_singleton.mp hop with rfl
    rfl
  · simp [connectToLatest]

/-- Witness for `reconciler_aborted_midpass` at a concrete held session. -/
theorem reconciler_aborted_midpass_witness :
    (connectToLatest (some "B") true ⟨some (0, "A"), some "A", 1⟩).1.client
        = none ∧
    (connectToLatest (some "B") true
        ⟨some (0, "A"), some "A", 1⟩).1.latestServerEndpoint = some "B" ∧
    connectToLatest (some "B") false
        (connectToLatest (some "B") true ⟨some (0, "A"), some "A", 1⟩).1 =
      ((connectToLatest (some "B") true ⟨some (0, "A"), some "A", 1⟩).1, []) := by
  have h := reconciler_aborted_midpass ⟨some (0, "A"), some "A", 1⟩ 0 "A" "B"
    rfl (by decide)
  exact ⟨h.1, h.2.1, h.2.2.2 false⟩

def lccExecFrom (acc : LCCState × List LSPEvent) (ops : List LCCOp) :
    LCCState × List LSPEvent :=
  ops.foldl
    (fun acc op =>
      let r := lccStep acc.1 op
      (r.1, acc.2 ++ r.2))
    acc

lemma lccExec_eq_execFrom (ops : List LCCOp) :
    lccExec ops = lccExecFrom (LCCState.start, []) ops := rfl

lemma liveFrom_append (acc : List Nat) (a b : List LSPEvent) :
    liveFrom acc (a ++ b) = liveFrom (liveFrom acc a) b :=
  List.foldl_append liveStep acc a b

lemma clientIds_length (s : LCCState) : (clientIds s).length ≤ 1 := by
  cases hc : s.client <;> simp [clientIds, hc]

/-- After tearing down, the live sessions of the pass's events, started
from the held ids, are exactly the (empty) held ids of the result. -/
lemma tearDown_live_final (reason : String) (s : LCCState) :
    liveFrom (clientIds s) (tearDownClient reason s).2 =
      clientIds (tearDownClient reason s).1 := by
  cases hc : s.client with
  | none => simp [tearDownClient, hc, liveFrom, clientIds]
  | some c =>
    obtain ⟨id, epc⟩ := c
    simp [tearDownClient, hc, liveFrom, liveStep, clientIds]

lemma tearDown_live_take (reason : String) (s : LCCState) (m : Nat) :
    (liveFrom (clientIds s) ((tearDownClient reason s).2.take m)).length ≤ 1 := by
  cases hc : s.client with
  | none => simp [tearDownClient, hc, liveFrom, clientIds]
  | some c =>
    obtain ⟨id, epc⟩ := c
    rcases m with _ | m <;>
      simp [tearDownClient, hc, liveFrom, liveStep, clientIds]

lemma connect_live_final (latest : Option String) (ab : Bool) (s : LCCState) :
    liveFrom (clientIds s) (connectToLatest latest ab s).2 =
      clientIds (connectToLatest latest ab s).1 := by
  cases latest with
  | none => exact tearDown_live_final "No assigned servers" s
  | some ep =>
    by_cases heq : s.latestServerEndpoint = some ep
    · simp [connectToLatest, heq, liveFrom, clientIds]
    · cases ab with
      | true =>
        cases hc : s.client with
        | none => simp [connectToLatest, heq, tearDownClient, hc, liveFrom, clientIds]
        | some c =>
          obtain ⟨id, epc⟩ := c
          simp [connectToLatest, heq, tearDownClient, hc, liveFrom, liveStep,
            clientIds]
      | false =>
        cases hc : s.client with
        | none =>
          simp [connectToLatest, heq, tearDownClient, hc, liveFrom, liveStep,
            clientIds]
        | some c =>
          obtain ⟨id, epc⟩ := c
          simp [connectToLatest, heq, tearDownClient, hc, liveFrom, liveStep,
            clientIds]

lemma connect_live_take (latest : Option String) (ab : Bool) (s : LCCState)
    (m : Nat) :
    (liveFrom (clientIds s) ((connectToLatest latest ab s).2.take m)).length
      ≤ 1 := by
  cases latest with
  | none => exact tearDown_live_take "No assigned servers" s m
  | some ep =>
    by_cases heq : s.latestServerEndpoint = some ep
    · simp [connectToLatest, heq, liveFrom, clientIds_length]
    · cases ab with
      | true =>
        cases hc : s.client with
        | none => simp [connectToLatest, heq, tearDownClient, hc, liveFrom, clientIds]
        | some c =>
          obtain ⟨id, epc⟩ := c
          rcases m with _ | m <;>
            simp [connectToLatest, heq, tearDownClient, hc, liveFrom, liveStep,
              clientIds]
      | false =>
        cases hc : s.client with
        | none =>
          rcases m with _ | m <;>
            simp [connectToLatest, heq, tearDownClient, hc, liveFrom, liveStep,
              clientIds]
        | some c =>
          obtain ⟨id, epc⟩ := c
          rcases m with _ | _ | m <;>
            simp [connectToLatest, heq, tearDownClient, hc, liveFrom, liveStep,
              clientIds]

lemma handle_live_final (e : LCCChangeEvent) (latest : Option String)
    (ab : Bool) (s : LCCState) :
    liveFrom (clientIds s) (lccHandleChange e latest ab s).2 =
      clientIds (lccHandleChange e latest ab s).1 := by
  by_cases hact : actsOn e s = true
  · have hmain : lccHandleChange e latest ab s =
        ((connectToLatest latest ab (tearDownClient "Server removed" s).1).1,
         (tearDownClient "Server removed" s).2 ++
           (connectToLatest latest ab (tearDownClient "Server removed" s).1).2) := by
      simp [lccHandleChange, hact]
    rw [hmain, liveFrom_append, tearDown_live_final]
    exact connect_live_final latest ab _
  · simp [lccHandleChange, hact, liveFrom]

lemma handle_live_take (e : LCCChangeEvent) (latest : Option String)
    (ab : Bool) (s : LCCState) (m : Nat) :
    (liveFrom (clientIds s) ((lccHandleChange e latest ab s).2.take m)).length
      ≤ 1 := by
  by_cases hact : actsOn e s = true
  · have hmain : lccHandleChange e latest ab s =
        ((connectToLatest latest ab (tearDownClient "Server removed" s).1).1,
         (tearDownClient "Server removed" s).2 ++
           (connectToLatest latest ab (tearDownClient "Server removed" s).1).2) := by
      simp [lccHandleChange, hact]
    rw [hmain]
    by_cases hm : m ≤ (tearDownClient "Server removed" s).2.length
    · rw [List.take_append_eq_append_take, Nat.sub_eq_zero_of_le hm,
        List.take_zero, List.append_nil]
      exact tearDown_live_take "Server removed" s m
    · have hlen : (tearDownClient "Server removed" s).2.length ≤ m :=
        Nat.le_of_lt (Nat.lt_of_not_le hm)
      rw [List.take_append_eq_append_take, List.take_of_length_le hlen,
        liveFrom_append, tearDown_live_final]
      exact connect_live_take latest ab _ _
  · simp [lccHandleChange, hact, liveFrom, clientIds_length]

lemma lccStep_live_final (s : LCCState) (op : LCCOp) :
    liveFrom (clientIds s) (lccStep s op).2 = clientIds (lccStep s op).1 := by
  cases op with
  | initialPass latest ab => exact connect_live_final latest ab s
  | notify e latest ab => exact handle_live_final e latest ab s
  | toggleOff => exact tearDown_live_final "Toggled off" s

lemma lccStep_live_take (s : LCCState) (op : LCCOp) (m : Nat) :
    (liveFrom (clientIds s) ((lccStep s op).2.take m)).length ≤ 1 := by
  cases op with
  | initialPass latest ab => exact connect_live_take latest ab s m
  | notify e latest ab => exact handle_live_take e latest ab s m
  | toggleOff => exact tearDown_live_take "Toggled off" s m

/-- Trace invariant of the controller: the live sessions of the
accumulated event trace match the held client, and every prefix of the
trace has at most one live session. -/
lemma lccExecFrom_invariant (ops : List LCCOp) :
    ∀ (s : LCCState) (evs : List LSPEvent),
      liveAfter evs = clientIds s →
      (∀ n, (liveAfter (evs.take n)).length ≤ 1) →
      liveAfter (lccExecFrom (s, evs) ops).2 =
        clientIds (lccExecFrom (s, evs) ops).1 ∧
      ∀ n, (liveAfter ((lccExecFrom (s, evs) ops).2.take n)).length ≤ 1 := by
  induction ops with
  | nil => intro s evs h1 h2; exact ⟨h1, h2⟩
  | cons op rest ih =>
    intro s evs h1 h2
    have hstep : lccExecFrom (s, evs) (op :: rest) =
        lccExecFrom ((lccStep s op).1, evs ++ (lccStep s op).2) rest := rfl
    rw [hstep]
    apply ih
    · simp only [liveAfter] at h1 ⊢
      rw [liveFrom_append, h1]
      exact lccStep_live_final s op
    · intro n
      by_cases hn : n ≤ evs.length
      · rw [List.take_append_eq_append_take, Nat.sub_eq_zero_of_le hn,
          List.take_zero, List.append_nil]
        exact h2 n
      · have hlen : evs.length ≤ n := Nat.le_of_lt (Nat.lt_of_not_le hn)
        rw [List.take_append_eq_append_take, List.take_of_length_le hlen]
        simp only [liveAfter] at h1 ⊢
        rw [liveFrom_append, h1]
        exact lccStep_live_take s op (n - evs.length)

/-- C5: over every sequence of controller passes (initial pass, change
notifications, toggle-off) from the start state, every prefix of the
emitted session-event trace has at most one live session — so a new
session is only ever created after the prior one's tear-down; and a pass
that finds no latest server tears the held session down and creates no
new one (no open event). -/
theorem reconciler_single_session (ops : List LCCOp) (n : Nat) :
    (liveAfter ((lccExec ops).2.take n)).length ≤ 1 ∧
    ∀ (b : Bool) (s : LCCState),
      (connectToLatest none b s).1.client = none ∧
      ∀ op ∈ (connectToLatest none b s).2, isOpenEvent op = false := by
  constructor
  · rw [lccExec_eq_execFrom]
    have h := lccExecFrom_invariant ops LCCState.start [] rfl
      (fun k => by simp [liveAfter, liveFrom])
    exact h.2 n
  · intro b s
    constructor
    · show (tearDownClient "No assigned servers" s).1.client = none
      cases hc : s.client with
      | none => simp [tearDownClient, hc]
      | some c =>
        obtain ⟨id, epc⟩ := c
        simp [tearDownClient, hc]
    · exact fun op hop => tearDown_no_open _ s op hop

/-- Witness for `reconciler_single_session` at a concrete two-pass trace
and a concrete held session torn down by an absent latest server. -/
theorem reconciler_single_session_witness :
    (liveAfter ((lccExec [LCCOp.initialPass (some "A") false,
        LCCOp.notify ⟨["B"], []⟩ (some "B") false]).2.take 5)).length ≤ 1 ∧
    (connectToLatest none false ⟨some (0, "A"), some "A", 1⟩).1.client = none ∧
    isOpenEvent (LSPEvent.closeSession 0 "No assigned servers") = false := by
  have h := reconciler_single_session [LCCOp.initialPass (some "A") false,
    LCCOp.notify ⟨["B"], []⟩ (some "B") false] 5
  refine ⟨h.1, (h.2 false ⟨some (0, "A"), some "A", 1⟩).1, ?_⟩
  exact (h.2 false ⟨some (0, "A"), some "A", 1⟩).2
    (LSPEvent.closeSession 0 "No assigned servers") (by decide)

end Colab
